import Mathlib

set_option autoImplicit false

/-!
Verification of the protectable-memory (pmalloc / write-rare / prlist)
subsystem: a shallow embedding of mm/prmem.c, include/linux/prmem.h,
mm/pmalloc.c (is_pmalloc_object) and include/linux/prlist.h, plus
theorems about the embedded operations.

Machine model: 64-bit kernel (x86_64/arm64 configuration), PAGE_SIZE =
4096.  Addresses and size_t values are natural numbers; wherever the C
code can wrap (size_t or pointer arithmetic) the operation is taken
modulo 2^64.
-/

namespace Prmem

/-- PAGE_SIZE: 4 KiB pages (PAGE_SHIFT = 12). -/
def PAGE_SIZE : Nat := 4096

/-- Modulus of 64-bit size_t / unsigned long / pointer arithmetic. -/
def U64 : Nat := 2 ^ 64

/-- C unsigned 64-bit subtraction a - b, wrapping modulo 2^64.
    Faithful for operand values below 2^64 (all size_t values). -/
def csub (a b : Nat) : Nat := (a + U64 - b) % U64

/-- A size_t value converted to a 32-bit signed int, as gcc on the
    supported targets does it: reduction modulo 2^32, read back as a
    two's complement value. -/
def toInt32 (x : Nat) : Int :=
  if x % 2 ^ 32 < 2 ^ 31 then ((x % 2 ^ 32 : Nat) : Int)
  else ((x % 2 ^ 32 : Nat) : Int) - 2 ^ 32

/-- An int value stored back into a size_t variable (two's complement
    sign extension, then reduction modulo 2^64). -/
def intToSizeT (i : Int) : Nat := (i % (U64 : Int)).toNat

/-- size = min((int)a, (int)b) assigned to a size_t, as written in the
    per-page loops of wr_memset/wr_memcpy (include/linux/prmem.h). -/
def cMin64 (a b : Nat) : Nat := intToSizeT (min (toInt32 a) (toInt32 b))

/-- The three pmalloc bits of vm_struct::flags: VM_PMALLOC,
    VM_PMALLOC_WR and VM_PMALLOC_PROTECTED.  The code reads and writes
    these bits only through the corresponding masks, so they are
    modelled as three named booleans; prot stands for the PROTECTED
    bit. -/
structure VmFlags where
  pmalloc : Bool
  wr : Bool
  prot : Bool
  deriving DecidableEq

/-- One vmap_area with its vm_struct, as used for a pool chunk:
    va_start, nr_pages, the pmalloc bits of vm->flags, and ro for the
    page-table write protection installed by set_memory_ro/rw. -/
structure VmapArea where
  va_start : Nat
  nr_pages : Nat
  flags : VmFlags
  ro : Bool
  deriving DecidableEq

/-- vm_struct::size.  vmalloc backs nr_pages pages and the area
    additionally covers one unmapped guard page, so vm->size is
    (nr_pages + 1) * PAGE_SIZE.  grow() in mm/prmem.c acknowledges
    this: it sets the usable space to nr_pages * PAGE_SIZE, "without
    the canary bird". -/
def vm_size (a : VmapArea) : Nat := (a.nr_pages + 1) * PAGE_SIZE

/-- One past the end of the page-backed byte range of an area. -/
def area_pages_end (a : VmapArea) : Nat := a.va_start + a.nr_pages * PAGE_SIZE

/-- protect_area() (mm/prmem.c):
    set_memory_ro(area->va_start, area->vm->nr_pages) and
    area->vm->flags |= VM_PMALLOC_PROTECTED_MASK, where the mask is
    VM_PMALLOC | VM_PMALLOC_PROTECTED. -/
def protect_area (a : VmapArea) : VmapArea :=
  { a with ro := true, flags := { a.flags with pmalloc := true, prot := true } }

/-- pool->mode: the bits PMALLOC_WR, PMALLOC_AUTO, PMALLOC_START.
    pmalloc_init_custom_pool masks mode with PMALLOC_MASK, so no other
    bit is ever set. -/
structure PmallocMode where
  wr : Bool
  auto : Bool
  start : Bool
  deriving DecidableEq

/-- struct pmalloc_pool (include/linux/prmem.h).  The chunk chain
    pool->area, area->next, ... is a list whose head is the current
    chunk.  The pool mutex and the global pool registry only serialize
    access and do not affect the sequential semantics, so they are not
    modelled. -/
structure PmallocPool where
  area : List VmapArea
  align : Nat
  refill : Nat
  offset : Nat
  mode : PmallocMode
  deriving DecidableEq

/-- round_down(x, y).  The aligns produced by
    pmalloc_init_custom_pool are powers of two, for which the C bit
    trick x & ~(y - 1) equals x - x % y; both give 0 for y = 0. -/
def round_down (x y : Nat) : Nat := x - x % y

/-- empty() (mm/prmem.c). -/
def empty (p : PmallocPool) : Bool := p.area.isEmpty

/-- unwritable() (mm/prmem.c): the current chunk is protected and the
    pool is not a START_WR pool with a write-rare chunk.  Only reached
    with a non-empty pool (short-circuit in space_needed). -/
def unwritable (p : PmallocPool) : Bool :=
  match p.area with
  | [] => false
  | a :: _ => a.flags.prot && !(a.flags.wr && p.mode.start)

/-- exhausted() (mm/prmem.c). -/
def exhausted (p : PmallocPool) (size : Nat) : Bool :=
  let space_before := round_down p.offset p.align
  let space_after := p.offset - space_before
  decide (space_after < size) && decide (space_before < size)

/-- space_needed() (mm/prmem.c). -/
def space_needed (p : PmallocPool) (size : Nat) : Bool :=
  empty p || unwritable p || exhausted p size

/-- PAGE_ALIGN(size) / PAGE_SIZE: the number of pages vmalloc backs
    for a request of size bytes. -/
def vmalloc_nr_pages (size : Nat) : Nat := (size + PAGE_SIZE - 1) / PAGE_SIZE

/-- grow() (mm/prmem.c).  The platform allocator is an oracle: vres is
    the address returned by vmalloc for this request, or none when
    vmalloc fails (-ENOMEM path).  The new chunk is tagged with
    VM_PMALLOC and, for a write-rare pool, VM_PMALLOC_WR; a START pool
    protects the new chunk at once, an AUTO pool protects the previous
    current chunk. -/
def grow (p : PmallocPool) (min_size : Nat) (vres : Option Nat) :
    Option PmallocPool :=
  match vres with
  | none => none
  | some addr =>
    let size := max min_size p.refill
    let nr := vmalloc_nr_pages size
    let a0 : VmapArea :=
      { va_start := addr, nr_pages := nr
        flags := { pmalloc := true, wr := p.mode.wr, prot := false }
        ro := false }
    let a1 := if p.mode.start then protect_area a0 else a0
    let rest := if p.mode.auto && !p.area.isEmpty
                then p.area.modifyHead protect_area
                else p.area
    some { p with area := a1 :: rest, offset := a1.nr_pages * PAGE_SIZE }

/-- The bump-allocation step at the end of pmalloc() (mm/prmem.c):
    pool->offset = round_down(pool->offset - size, pool->align);
    retval = pool->area->va_start + pool->offset.
    The empty case is unreachable (pmalloc grows empty pools first). -/
def pmalloc_alloc (p : PmallocPool) (size : Nat) : Option Nat × PmallocPool :=
  match p.area with
  | [] => (none, p)
  | a :: _ =>
    let off := round_down (csub p.offset size) p.align
    (some (a.va_start + off), { p with offset := off })

/-- pmalloc() (mm/prmem.c). -/
def pmalloc (p : PmallocPool) (size : Nat) (vres : Option Nat) :
    Option Nat × PmallocPool :=
  if space_needed p size then
    match grow p size vres with
    | none => (none, p)
    | some p1 => pmalloc_alloc p1 size
  else pmalloc_alloc p size

/-- pmalloc_protect_pool() (mm/prmem.c): protect_area on every chunk. -/
def pmalloc_protect_pool (p : PmallocPool) : PmallocPool :=
  { p with area := p.area.map protect_area }

/-- pmalloc_make_pool_ro() (mm/prmem.c): clears PMALLOC_WR and
    PMALLOC_START from the pool mode, then protect_area on every
    chunk. -/
def pmalloc_make_pool_ro (p : PmallocPool) : PmallocPool :=
  { p with mode := { p.mode with wr := false, start := false }
           area := p.area.map protect_area }

/-- ARCH_KMALLOC_MINALIGN on the supported targets. -/
def ARCH_KMALLOC_MINALIGN : Nat := 8

/-- pmalloc_init_custom_pool() (mm/prmem.c): refill is page-aligned
    with default PAGE_SIZE, negative align orders give
    ARCH_KMALLOC_MINALIGN, and PMALLOC_START forces PMALLOC_WR. -/
def pmalloc_init_custom_pool (refill : Nat) (align_order : Int)
    (mode : PmallocMode) : PmallocPool :=
  { area := []
    align := if align_order < 0 then ARCH_KMALLOC_MINALIGN
             else 2 ^ align_order.toNat
    refill := if refill ≠ 0 then vmalloc_nr_pages refill * PAGE_SIZE
              else PAGE_SIZE
    offset := 0
    mode := if mode.start then { mode with wr := true } else mode }

/-- pmalloc_array() (include/linux/prmem.h): total_size = n * size in
    size_t arithmetic; the allocation is refused unless n is non-zero
    and total_size / n == size. -/
def pmalloc_array (p : PmallocPool) (n size : Nat) (vres : Option Nat) :
    Option Nat × PmallocPool :=
  let total_size := (n * size) % U64
  if n ≠ 0 ∧ total_size / n = size then pmalloc p total_size vres
  else (none, p)

/-- pzalloc() (include/linux/prmem.h): pmalloc followed by zeroing of
    the returned object.  The zeroing writes only the returned memory,
    so the returned-pointer/pool-state view coincides with pmalloc. -/
def pzalloc (p : PmallocPool) (size : Nat) (vres : Option Nat) :
    Option Nat × PmallocPool :=
  pmalloc p size vres

/-- pcalloc() (include/linux/prmem.h): overflow-guarded pzalloc. -/
def pcalloc (p : PmallocPool) (n size : Nat) (vres : Option Nat) :
    Option Nat × PmallocPool :=
  let total_size := (n * size) % U64
  if n ≠ 0 ∧ total_size / n = size then pzalloc p total_size vres
  else (none, p)

/-- Byte-addressed memory: the byte stored at each address. -/
def Mem : Type := Nat → Nat

/-- vmalloc_to_page(ptr)->area->vm: the vmap area whose page-backed
    range contains ptr, if any.  Guard pages and addresses outside the
    vmalloc areas have no backing page and yield none. -/
def vmalloc_to_area (chunks : List VmapArea) (ptr : Nat) : Option VmapArea :=
  chunks.find? (fun a => decide (a.va_start ≤ ptr) && decide (ptr < area_pages_end a))

/-- The address bounds of the static __wr_after_init section
    (__start_wr_after_init / __end_wr_after_init) together with the
    vmap areas visible to vmalloc_to_page. -/
structure WrConfig where
  wrStart : Nat
  wrEnd : Nat
  chunks : List VmapArea

/-- __is_wr_after_init() (include/linux/prmem.h); high = ptr + size is
    size_t arithmetic. -/
def __is_wr_after_init (cfg : WrConfig) (ptr size : Nat) : Bool :=
  let low := ptr
  let high := (ptr + size) % U64
  decide (cfg.wrStart ≤ low) && decide (low < high) && decide (high ≤ cfg.wrEnd)

/-- __is_wr_pool() (include/linux/prmem.h): the area of the page
    containing ptr must satisfy vm->size >= size and have both
    VM_PMALLOC and VM_PMALLOC_WR set.  Note that the code compares the
    gross area size with size; the offset of ptr inside the area is
    not taken into account. -/
def __is_wr_pool (cfg : WrConfig) (ptr size : Nat) : Bool :=
  match vmalloc_to_area cfg.chunks ptr with
  | none => false
  | some a => decide (size ≤ vm_size a) && (a.flags.pmalloc && a.flags.wr)

/-- Effect of one loop iteration of wr_memcpy on memory: n bytes at
    dst become copies of the n bytes at src (the iteration stays within
    one remapped page). -/
def wr_write_seg (mem : Mem) (dst src n : Nat) : Mem :=
  fun a => if dst ≤ a ∧ a < dst + n then mem (src + (a - dst)) else mem a

/-- Effect of one loop iteration of wr_memset on memory: n bytes at
    dst become c. -/
def wr_fill_seg (mem : Mem) (dst c n : Nat) : Mem :=
  fun a => if dst ≤ a ∧ a < dst + n then c else mem a

/-- The per-iteration transfer size of the wr_memset/wr_memcpy loops
    (include/linux/prmem.h):
    offset = (uintptr_t)d & ~PAGE_MASK;
    offset_complement = PAGE_SIZE - offset;
    size = min(((int)n_bytes), ((int)offset_complement)); -/
def wr_step_size (d n : Nat) : Nat := cMin64 n (PAGE_SIZE - d % PAGE_SIZE)

/-- The while (n_bytes) loop of wr_memcpy (include/linux/prmem.h).
    is_virt selects virt_to_page (static section, always backed) over
    vmalloc_to_page; when the page lookup yields no page the vmap
    remap fails, which WARNs and returns false with whatever has been
    written so far.  Pointer and size_t arithmetic wrap modulo 2^64.
    fuel only bounds the recursion; it is chosen large enough for
    every terminating execution of the C loop. -/
def wr_memcpy_loop (chunks : List VmapArea) (is_virt : Bool) :
    Nat → Nat → Nat → Nat → Mem → Bool × Mem
  | 0, _, _, _, mem => (false, mem)
  | fuel + 1, d, s, n, mem =>
    if n = 0 then (true, mem)
    else if !is_virt && (vmalloc_to_area chunks d).isNone then (false, mem)
    else
      let size := wr_step_size d n
      wr_memcpy_loop chunks is_virt fuel ((d + size) % U64) ((s + size) % U64)
        (csub n size) (wr_write_seg mem d s size)

/-- wr_memcpy() (include/linux/prmem.h): range check against the
    static __wr_after_init section or a write-rare pool chunk, then
    the per-page copy loop. -/
def wr_memcpy (cfg : WrConfig) (mem : Mem) (dst src n_bytes : Nat) :
    Bool × Mem :=
  let is_virt := __is_wr_after_init cfg dst n_bytes
  if !(is_virt || __is_wr_pool cfg dst n_bytes) then (false, mem)
  else wr_memcpy_loop cfg.chunks is_virt (n_bytes + 1) dst src n_bytes mem

/-- The while (n_bytes) loop of wr_memset (include/linux/prmem.h);
    identical control to the wr_memcpy loop, with a byte fill. -/
def wr_memset_loop (chunks : List VmapArea) (is_virt : Bool) (c : Nat) :
    Nat → Nat → Nat → Mem → Bool × Mem
  | 0, _, _, mem => (false, mem)
  | fuel + 1, d, n, mem =>
    if n = 0 then (true, mem)
    else if !is_virt && (vmalloc_to_area chunks d).isNone then (false, mem)
    else
      let size := wr_step_size d n
      wr_memset_loop chunks is_virt c fuel ((d + size) % U64)
        (csub n size) (wr_fill_seg mem d c size)

/-- wr_memset() (include/linux/prmem.h). -/
def wr_memset (cfg : WrConfig) (mem : Mem) (dst c n_bytes : Nat) :
    Bool × Mem :=
  let is_virt := __is_wr_after_init cfg dst n_bytes
  if !(is_virt || __is_wr_pool cfg dst n_bytes) then (false, mem)
  else wr_memset_loop cfg.chunks is_virt c (n_bytes + 1) dst n_bytes mem

/-- is_pmalloc_object() (mm/pmalloc.c): classifies the alleged object
    [ptr, ptr+n) against the pmalloc-tagged vmap areas.
    Returns 0 (NOT_PMALLOC_OBJECT), 1 (VALID_PMALLOC_OBJECT) or
    -1 (INVALID_PMALLOC_OBJECT).  The bound computations
    area_end = area_start + nr_pages * PAGE_SIZE - 1 and
    object_end = object_start + n - 1 are unsigned long arithmetic
    modulo 2^64. -/
def is_pmalloc_object (chunks : List VmapArea) (ptr n : Nat) : Int :=
  match vmalloc_to_area chunks ptr with
  | none => 0
  | some area =>
    if !area.flags.pmalloc then 0
    else
      let area_start := area.va_start
      let area_end := (area_start + area.nr_pages * PAGE_SIZE + (U64 - 1)) % U64
      let object_end := (ptr + n + (U64 - 1)) % U64
      if decide (area_start ≤ ptr) && decide (object_end ≤ area_end) then 1
      else -1

/-- The destination range [ptr, ptr+n) lies fully inside a recognized
    write-rare region in the sense of the specification: inside the
    static __wr_after_init section, or inside the page-backed range of
    one write-rare pool chunk. -/
def wr_range_in_region (cfg : WrConfig) (ptr n : Nat) : Bool :=
  (decide (cfg.wrStart ≤ ptr) && decide (ptr + n ≤ cfg.wrEnd)) ||
  cfg.chunks.any (fun a =>
    a.flags.pmalloc && a.flags.wr &&
    decide (a.va_start ≤ ptr) && decide (ptr + n ≤ area_pages_end a))

/-- The two link fields of union prlist_head (include/linux/prlist.h);
    the values are node addresses. -/
structure PrNode where
  next : Nat
  prev : Nat
  deriving DecidableEq

/-- The write-rare heap of list nodes: link fields of the node at each
    address.  prlist_set_next/prlist_set_prev route each store through
    wr_ptr; live prlist nodes are write-rare memory, where wr_ptr
    succeeds, so the stores are modelled as direct field updates. -/
def Heap : Type := Nat → PrNode

/-- prlist_set_next(x, v) via wr_ptr: the next field of the node at x
    becomes v, its prev field and all other nodes are unchanged. -/
def set_next (h : Heap) (x v : Nat) : Heap :=
  fun a => if a = x then ⟨v, (h x).prev⟩ else h a

/-- prlist_set_prev(x, v) via wr_ptr: the prev field of the node at x
    becomes v, its next field and all other nodes are unchanged. -/
def set_prev (h : Heap) (x v : Nat) : Heap :=
  fun a => if a = x then ⟨(h x).next, v⟩ else h a

/-- LIST_POISON1 (include/linux/poison.h, default config). -/
def LIST_POISON1 : Nat := 0x100

/-- LIST_POISON2 (include/linux/poison.h, default config). -/
def LIST_POISON2 : Nat := 0x122

/-- INIT_PRLIST_HEAD() (include/linux/prlist.h): set prev, then next,
    both to the head itself. -/
def INIT_PRLIST_HEAD (h : Heap) (head : Nat) : Heap :=
  set_next (set_prev h head head) head head

/-- __prlist_add() (include/linux/prlist.h).  __list_add_valid is the
    CONFIG_DEBUG_LIST hook and is constant true in a non-debug build.
    Store order: next->prev, new->next, new->prev, prev->next. -/
def __prlist_add (h : Heap) (nw prev next : Nat) : Heap :=
  set_next (set_prev (set_next (set_prev h next nw) nw next) nw prev) prev nw

/-- prlist_add() (include/linux/prlist.h): insert nw right after head;
    head->next is read before any store. -/
def prlist_add (h : Heap) (nw head : Nat) : Heap :=
  __prlist_add h nw head (h head).next

/-- prlist_add_tail() (include/linux/prlist.h). -/
def prlist_add_tail (h : Heap) (nw head : Nat) : Heap :=
  __prlist_add h nw (h head).prev head

/-- __prlist_del() (include/linux/prlist.h): next->prev, prev->next. -/
def __prlist_del (h : Heap) (prev next : Nat) : Heap :=
  set_next (set_prev h next prev) prev next

/-- __prlist_del_entry() (include/linux/prlist.h); entry->prev and
    entry->next are read before any store.  __list_del_entry_valid is
    the CONFIG_DEBUG_LIST hook, constant true in a non-debug build. -/
def __prlist_del_entry (h : Heap) (entry : Nat) : Heap :=
  __prlist_del h (h entry).prev (h entry).next

/-- prlist_del() (include/linux/prlist.h): unlink, then poison the
    removed node: next := LIST_POISON1, prev := LIST_POISON2. -/
def prlist_del (h : Heap) (entry : Nat) : Heap :=
  set_prev (set_next (__prlist_del_entry h entry) entry LIST_POISON1)
    entry LIST_POISON2

/-- k steps of forward traversal along the next pointers. -/
def nextChain (h : Heap) (x : Nat) : Nat → Nat
  | 0 => x
  | k + 1 => nextChain h (h x).next k

/-- A well-formed circular doubly linked list: the distinct node
    addresses xs in cyclic order, with next and prev fields linking
    each node to its cyclic successor and predecessor. -/
def ringWF (h : Heap) (xs : List Nat) : Prop :=
  ∀ i : Fin xs.length,
    (h (xs.get i)).next
        = xs.get ⟨(i.val + 1) % xs.length, Nat.mod_lt _ i.pos⟩ ∧
    (h (xs.get i)).prev
        = xs.get ⟨(i.val + xs.length - 1) % xs.length, Nat.mod_lt _ i.pos⟩

/-! Support lemmas. -/

theorem le_nr_pages_mul (x : Nat) : x ≤ vmalloc_nr_pages x * PAGE_SIZE := by
  have h1 := Nat.div_add_mod (x + PAGE_SIZE - 1) PAGE_SIZE
  have h2 : (x + PAGE_SIZE - 1) % PAGE_SIZE < PAGE_SIZE :=
    Nat.mod_lt _ (by decide)
  unfold vmalloc_nr_pages PAGE_SIZE at *
  omega

theorem nr_pages_mul_le (x : Nat) :
    vmalloc_nr_pages x * PAGE_SIZE ≤ x + PAGE_SIZE - 1 :=
  Nat.div_mul_le_self _ _

theorem csub_of_le (a b : Nat) (hb : b ≤ a) (ha : a < U64) :
    csub a b = a - b := by
  unfold csub U64 at *
  omega

theorem round_down_le (x y : Nat) : round_down x y ≤ x := Nat.sub_le _ _

theorem protect_area_idem (a : VmapArea) :
    protect_area (protect_area a) = protect_area a := rfl

theorem all_prot_map (L : List VmapArea) :
    (L.map protect_area).all (fun a => a.flags.prot) = true := by
  induction L with
  | nil => rfl
  | cons a t ih => simp [protect_area, ih]

/-! Claim theorems. -/

/-- C1: the claim fails on the code.  With a single write-rare chunk
    covering [4096, 12288), the destination range [12287, 16384) is not
    inside any recognized write-rare region, yet __is_wr_pool accepts
    it, because the code only compares vm->size (which even includes
    the guard page) with n and ignores where dst sits inside the chunk.
    wr_memcpy then overwrites the last byte of the chunk and fails only
    when the loop walks onto the unbacked guard page: the call returns
    false with the destination modified, instead of refusing and
    leaving every byte at dst unchanged. -/
theorem claim_C1_wr_memcpy_range_check_bug :
    wr_range_in_region ⟨0, 0, [⟨4096, 2, ⟨true, true, false⟩, false⟩]⟩
        12287 4097 = false ∧
    __is_wr_pool ⟨0, 0, [⟨4096, 2, ⟨true, true, false⟩, false⟩]⟩
        12287 4097 = true ∧
    (wr_memcpy ⟨0, 0, [⟨4096, 2, ⟨true, true, false⟩, false⟩]⟩
        (fun a => if 65536 ≤ a then 1 else 0) 12287 65536 4097).1 = false ∧
    (wr_memcpy ⟨0, 0, [⟨4096, 2, ⟨true, true, false⟩, false⟩]⟩
        (fun a => if 65536 ≤ a then 1 else 0) 12287 65536 4097).2 12287 = 1 ∧
    ((fun a => if 65536 ≤ a then 1 else 0) : Mem) 12287 = 0 := by
  refine ⟨by decide, by decide, by decide, by decide, by decide⟩

/-- C4: the claim fails on the code.  With one pmalloc chunk covering
    [4096, 8192), the alleged object at ptr = 4096 with
    n = 2^64 - 1 starts inside the chunk and (mathematically) extends
    far beyond its bound, so the claim requires Invalid (-1); but
    object_end = ptr + n - 1 wraps modulo 2^64 down to 4094, and
    is_pmalloc_object returns Valid (1). -/
theorem claim_C4_is_pmalloc_object_overflow_bug :
    is_pmalloc_object [⟨4096, 1, ⟨true, false, false⟩, false⟩]
        4096 (U64 - 1) = 1 ∧
    area_pages_end ⟨4096, 1, ⟨true, false, false⟩, false⟩ < 4096 + (U64 - 1) := by
  refine ⟨by decide, by decide⟩

/-- C5: the claim fails on the code.  The loops compute
    size = min(((int)n_bytes), ((int)offset_complement)); with
    n_bytes = 2^31 remaining and a page-aligned destination
    (d = 4096), the int cast makes (int)n_bytes negative, so the
    iteration size becomes 2^64 - 2^31 instead of
    min(2^31, PAGE_SIZE - offset) = 4096, and the remaining count
    n_bytes -= size wraps up to 2^32: the iteration neither processes
    min(remaining, PAGE_SIZE - offset) bytes nor decreases the
    remaining count. -/
theorem claim_C5_wr_loop_step_size_bug :
    wr_step_size 4096 (2 ^ 31) = 2 ^ 64 - 2 ^ 31 ∧
    min (2 ^ 31) (PAGE_SIZE - 4096 % PAGE_SIZE) = 4096 ∧
    wr_step_size 4096 (2 ^ 31) ≠ min (2 ^ 31) (PAGE_SIZE - 4096 % PAGE_SIZE) ∧
    csub (2 ^ 31) (wr_step_size 4096 (2 ^ 31)) = 2 ^ 32 ∧
    2 ^ 31 < csub (2 ^ 31) (wr_step_size 4096 (2 ^ 31)) := by
  refine ⟨by decide, by decide, by decide, by decide, by decide⟩

/-- C6: if pmalloc fails (returns NULL), which happens exactly when
    growth is needed and the platform allocator cannot satisfy the
    request, the pool is left exactly as it was: same chunk list,
    offset, alignment, refill and mode. -/
theorem claim_C6_pmalloc_failure_preserves_pool
    (p : PmallocPool) (size : Nat) (vres : Option Nat)
    (h : (pmalloc p size vres).1 = none) : (pmalloc p size vres).2 = p := by
  by_cases hs : space_needed p size = true
  · unfold pmalloc at h ⊢
    rw [if_pos hs] at h ⊢
    cases vres with
    | none => rfl
    | some addr => simp [grow, pmalloc_alloc] at h
  · unfold pmalloc at h ⊢
    rw [if_neg hs] at h ⊢
    unfold pmalloc_alloc at h ⊢
    cases hA : p.area with
    | nil =>
      exact absurd (by simp [space_needed, empty, hA]) hs
    | cons a t => rw [hA] at h; simp at h

/-- C6 witness: a concrete failing allocation (empty pool, vmalloc
    refuses) leaves the pool structurally unchanged. -/
theorem claim_C6_witness :
    (pmalloc ⟨[], 8, 4096, 0, ⟨false, false, false⟩⟩ 16 none).2
      = ⟨[], 8, 4096, 0, ⟨false, false, false⟩⟩ :=
  claim_C6_pmalloc_failure_preserves_pool _ 16 none (by decide)

/-- C7: pmalloc_protect_pool is idempotent in final state; re-running
    protect_area over an already-protected chunk is a no-op (the ro
    state and the PROTECTED flag are simply set again), there is no
    error path, and after one call every chunk of the pool carries the
    PROTECTED flag. -/
theorem claim_C7_protect_pool_idempotent (p : PmallocPool) :
    pmalloc_protect_pool (pmalloc_protect_pool p) = pmalloc_protect_pool p ∧
    (∀ a : VmapArea, protect_area (protect_area a) = protect_area a) ∧
    (pmalloc_protect_pool p).area.all (fun a => a.flags.prot) = true := by
  refine ⟨?_, fun a => protect_area_idem a, ?_⟩
  · cases p with
    | mk A al rf off m =>
      simp only [pmalloc_protect_pool, List.map_map]
      have hc : protect_area ∘ protect_area = protect_area :=
        funext fun a => protect_area_idem a
      rw [hc]
  · exact all_prot_map p.area

/-- C9: when n * size overflows size_t (n is non-zero and the size_t
    product divided back by n differs from size), pmalloc_array and
    pcalloc return NULL without consulting or changing the pool; the
    result does not depend on the pool at all. -/
theorem claim_C9_array_overflow_guard
    (p : PmallocPool) (n size : Nat) (vres : Option Nat)
    (_hn : n ≠ 0) (hdiv : (n * size) % U64 / n ≠ size) :
    pmalloc_array p n size vres = (none, p) ∧
    pcalloc p n size vres = (none, p) := by
  constructor
  · unfold pmalloc_array
    exact if_neg (fun hc => hdiv hc.2)
  · unfold pcalloc
    exact if_neg (fun hc => hdiv hc.2)

/-- C9 witness: n = 2^32 elements of 2^32 bytes overflow size_t; both
    helpers return the failure sentinel and the untouched pool. -/
theorem claim_C9_witness :
    pmalloc_array ⟨[], 8, 4096, 0, ⟨false, false, false⟩⟩ (2 ^ 32) (2 ^ 32) none
        = (none, ⟨[], 8, 4096, 0, ⟨false, false, false⟩⟩) ∧
    pcalloc ⟨[], 8, 4096, 0, ⟨false, false, false⟩⟩ (2 ^ 32) (2 ^ 32) none
        = (none, ⟨[], 8, 4096, 0, ⟨false, false, false⟩⟩) :=
  claim_C9_array_overflow_guard _ (2 ^ 32) (2 ^ 32) none (by decide) (by decide)

/-- C3: the shape of every successful grow.  The new chunk backs
    exactly PAGE_ALIGN(max(size, refill)) bytes (the amount requested
    from vmalloc), carries VM_PMALLOC, carries VM_PMALLOC_WR exactly
    when the pool mode has PMALLOC_WR, is protected immediately exactly
    when the mode has PMALLOC_START, and the previous chunks are
    untouched except that an AUTO pool protects the previous current
    chunk (and only that one). -/
theorem claim_C3_grow_spec (p : PmallocPool) (min_size addr : Nat) :
    ∃ (newA : VmapArea) (rest : List VmapArea) (p' : PmallocPool),
      grow p min_size (some addr) = some p' ∧
      p'.area = newA :: rest ∧
      p'.offset = newA.nr_pages * PAGE_SIZE ∧
      p'.align = p.align ∧ p'.refill = p.refill ∧ p'.mode = p.mode ∧
      newA.va_start = addr ∧
      newA.nr_pages = vmalloc_nr_pages (max min_size p.refill) ∧
      newA.flags.pmalloc = true ∧
      newA.flags.wr = p.mode.wr ∧
      newA.flags.prot = p.mode.start ∧
      newA.ro = p.mode.start ∧
      rest = (if p.mode.auto && !p.area.isEmpty
              then p.area.modifyHead protect_area
              else p.area) := by
  cases p with
  | mk A al rf off m =>
    cases m with
    | mk mwr mauto mstart =>
      cases mstart
      · exact ⟨_, _, _, rfl, rfl, rfl, rfl, rfl, rfl, rfl, rfl, rfl, rfl,
          rfl, rfl, rfl⟩
      · exact ⟨_, _, _, rfl, rfl, rfl, rfl, rfl, rfl, rfl, rfl, rfl, rfl,
          rfl, rfl, rfl⟩

/-- C2: a pool in read-only mode (no PMALLOC_WR, hence no
    PMALLOC_START) that has been protected with pmalloc_protect_pool.
    Every later pmalloc either fails, or returns a pointer whose
    allocated range [ptr, ptr+size) lies inside the freshly grown,
    still-unprotected head chunk, while every older chunk stays
    protected; memory is never carved out of a protected chunk.  The
    size_t bounds keep PAGE_ALIGN(max(size, refill)) below 2^64. -/
theorem claim_C2_pmalloc_after_protect
    (A : List VmapArea) (al rf off size : Nat) (auto : Bool)
    (vres : Option Nat)
    (hsz : size ≤ U64 - PAGE_SIZE) (hrf : rf ≤ U64 - PAGE_SIZE) :
    (pmalloc (pmalloc_protect_pool ⟨A, al, rf, off, ⟨false, auto, false⟩⟩)
        size vres).1 = none ∨
    ∃ (newA : VmapArea) (rest : List VmapArea) (ptr : Nat) (p' : PmallocPool),
      pmalloc (pmalloc_protect_pool ⟨A, al, rf, off, ⟨false, auto, false⟩⟩)
          size vres = (some ptr, p') ∧
      p'.area = newA :: rest ∧
      newA.flags.prot = false ∧ newA.ro = false ∧
      newA.va_start ≤ ptr ∧ ptr + size ≤ area_pages_end newA ∧
      rest.all (fun a => a.flags.prot) = true := by
  have hsn : space_needed
      (pmalloc_protect_pool ⟨A, al, rf, off, ⟨false, auto, false⟩⟩) size
      = true := by
    cases A with
    | nil => rfl
    | cons a t =>
      simp [space_needed, empty, unwritable, pmalloc_protect_pool,
        protect_area]
  cases vres with
  | none =>
    left
    unfold pmalloc
    rw [if_pos hsn]
    rfl
  | some addr =>
    right
    refine ⟨⟨addr, vmalloc_nr_pages (max size rf), ⟨true, false, false⟩, false⟩,
      if auto && !(A.map protect_area).isEmpty
        then (A.map protect_area).modifyHead protect_area
        else A.map protect_area,
      addr + round_down (csub (vmalloc_nr_pages (max size rf) * PAGE_SIZE)
        size) al,
      ⟨⟨addr, vmalloc_nr_pages (max size rf), ⟨true, false, false⟩, false⟩ ::
        (if auto && !(A.map protect_area).isEmpty
          then (A.map protect_area).modifyHead protect_area
          else A.map protect_area),
        al, rf,
        round_down (csub (vmalloc_nr_pages (max size rf) * PAGE_SIZE) size) al,
        ⟨false, auto, false⟩⟩,
      ?_, rfl, rfl, rfl, Nat.le_add_right _ _, ?_, ?_⟩
    · unfold pmalloc
      rw [if_pos hsn]
      rfl
    · have hmax : max size rf ≤ U64 - PAGE_SIZE := max_le hsz hrf
      have h1 : size ≤ vmalloc_nr_pages (max size rf) * PAGE_SIZE :=
        le_trans (le_max_left _ _) (le_nr_pages_mul _)
      have h2 : vmalloc_nr_pages (max size rf) * PAGE_SIZE < U64 := by
        have h3 := nr_pages_mul_le (max size rf)
        unfold U64 PAGE_SIZE at *
        omega
      have h4 := round_down_le (csub (vmalloc_nr_pages (max size rf)
        * PAGE_SIZE) size) al
      rw [csub_of_le _ _ h1 h2] at h4 ⊢
      dsimp only [area_pages_end]
      omega
    · cases A with
      | nil => simp
      | cons a t =>
        cases auto with
        | false => simpa using all_prot_map (a :: t)
        | true =>
          simp only [List.map_cons, List.isEmpty_cons, Bool.not_false,
            Bool.and_self, if_true, List.modifyHead]
          have := all_prot_map t
          simp_all [protect_area]

/-- C2 witness: a concrete protected read-only pool with one chunk;
    the next allocation comes from a fresh, unprotected chunk. -/
theorem claim_C2_witness :
    (pmalloc (pmalloc_protect_pool
        ⟨[⟨4096, 1, ⟨true, false, false⟩, false⟩], 8, 4096, 0,
          ⟨false, false, false⟩⟩) 8 (some 20480)).1 = none ∨
    ∃ (newA : VmapArea) (rest : List VmapArea) (ptr : Nat) (p' : PmallocPool),
      pmalloc (pmalloc_protect_pool
          ⟨[⟨4096, 1, ⟨true, false, false⟩, false⟩], 8, 4096, 0,
            ⟨false, false, false⟩⟩) 8 (some 20480) = (some ptr, p') ∧
      p'.area = newA :: rest ∧
      newA.flags.prot = false ∧ newA.ro = false ∧
      newA.va_start ≤ ptr ∧ ptr + 8 ≤ area_pages_end newA ∧
      rest.all (fun a => a.flags.prot) = true :=
  claim_C2_pmalloc_after_protect _ 8 4096 0 8 false (some 20480)
    (by decide) (by decide)

theorem vmalloc_to_area_map_protect (L : List VmapArea) (x : Nat) :
    vmalloc_to_area (L.map protect_area) x
      = (vmalloc_to_area L x).map protect_area := by
  induction L with
  | nil => rfl
  | cons a t ih =>
    unfold vmalloc_to_area at ih ⊢
    simp only [List.map_cons]
    cases hcond : (decide (a.va_start ≤ x) && decide (x < area_pages_end a)) with
    | true =>
      rw [@List.find?_cons_of_pos _
            (fun b => decide (b.va_start ≤ x) && decide (x < area_pages_end b))
            (protect_area a) (t.map protect_area) hcond,
          @List.find?_cons_of_pos _
            (fun b => decide (b.va_start ≤ x) && decide (x < area_pages_end b))
            a t hcond]
      rfl
    | false =>
      have hneg : ¬ ((decide (a.va_start ≤ x)
          && decide (x < area_pages_end a)) = true) := by
        simp [hcond]
      rw [@List.find?_cons_of_neg _
            (fun b => decide (b.va_start ≤ x) && decide (x < area_pages_end b))
            (protect_area a) (t.map protect_area) hneg,
          @List.find?_cons_of_neg _
            (fun b => decide (b.va_start ≤ x) && decide (x < area_pages_end b))
            a t hneg]
      exact ih

theorem vmalloc_to_area_map_protect_isNone (L : List VmapArea) (x : Nat) :
    (vmalloc_to_area (L.map protect_area) x).isNone
      = (vmalloc_to_area L x).isNone := by
  rw [vmalloc_to_area_map_protect]
  cases hfind : vmalloc_to_area L x <;> rfl

theorem wr_memcpy_loop_map_protect (L : List VmapArea) (iv : Bool) :
    ∀ (fuel d s n : Nat) (mem : Mem),
      wr_memcpy_loop (L.map protect_area) iv fuel d s n mem
        = wr_memcpy_loop L iv fuel d s n mem := by
  intro fuel
  induction fuel with
  | zero => intro d s n mem; rfl
  | succ f ih =>
    intro d s n mem
    unfold wr_memcpy_loop
    rw [vmalloc_to_area_map_protect_isNone]
    split_ifs
    · rfl
    · rfl
    · exact ih _ _ _ _

theorem wr_memset_loop_map_protect (L : List VmapArea) (iv : Bool) (c : Nat) :
    ∀ (fuel d n : Nat) (mem : Mem),
      wr_memset_loop (L.map protect_area) iv c fuel d n mem
        = wr_memset_loop L iv c fuel d n mem := by
  intro fuel
  induction fuel with
  | zero => intro d n mem; rfl
  | succ f ih =>
    intro d n mem
    unfold wr_memset_loop
    rw [vmalloc_to_area_map_protect_isNone]
    split_ifs
    · rfl
    · rfl
    · exact ih _ _ _

theorem is_wr_pool_map_protect (ws we : Nat) (L : List VmapArea)
    (hpm : ∀ a ∈ L, a.flags.pmalloc = true) (ptr n : Nat) :
    __is_wr_pool ⟨ws, we, L.map protect_area⟩ ptr n
      = __is_wr_pool ⟨ws, we, L⟩ ptr n := by
  unfold __is_wr_pool
  dsimp only
  rw [vmalloc_to_area_map_protect]
  cases hfind : vmalloc_to_area L ptr with
  | none => rfl
  | some a =>
    have ha : a ∈ L := List.mem_of_find?_eq_some hfind
    have h1 : vm_size (protect_area a) = vm_size a := rfl
    have h2 : (protect_area a).flags.wr = a.flags.wr := rfl
    have h3 : (protect_area a).flags.pmalloc = true := rfl
    simp only [Option.map_some', h1, h2, h3, hpm a ha]

/-- C10: pmalloc_make_pool_ro clears PMALLOC_WR and PMALLOC_START only
    from the pool mode field (PMALLOC_AUTO survives), while every chunk
    keeps its VM_PMALLOC_WR tag (protect_area only adds VM_PMALLOC and
    VM_PMALLOC_PROTECTED); the write-rare engine consults only the
    chunk flags, never the pool mode, so __is_wr_pool, wr_memcpy and
    wr_memset behave identically on the pool chunks before and after
    pmalloc_make_pool_ro.  The hypothesis — every chunk carries
    VM_PMALLOC — holds for every chunk created by grow. -/
theorem claim_C10_make_pool_ro_keeps_wr_writes
    (p : PmallocPool) (hpm : ∀ a ∈ p.area, a.flags.pmalloc = true) :
    (pmalloc_make_pool_ro p).mode.wr = false ∧
    (pmalloc_make_pool_ro p).mode.start = false ∧
    (pmalloc_make_pool_ro p).mode.auto = p.mode.auto ∧
    (pmalloc_make_pool_ro p).area = p.area.map protect_area ∧
    (∀ a : VmapArea, (protect_area a).flags.wr = a.flags.wr) ∧
    (∀ ws we ptr n : Nat,
      __is_wr_pool ⟨ws, we, (pmalloc_make_pool_ro p).area⟩ ptr n
        = __is_wr_pool ⟨ws, we, p.area⟩ ptr n) ∧
    (∀ (ws we : Nat) (mem : Mem) (dst src n : Nat),
      wr_memcpy ⟨ws, we, (pmalloc_make_pool_ro p).area⟩ mem dst src n
        = wr_memcpy ⟨ws, we, p.area⟩ mem dst src n) ∧
    (∀ (ws we : Nat) (mem : Mem) (dst c n : Nat),
      wr_memset ⟨ws, we, (pmalloc_make_pool_ro p).area⟩ mem dst c n
        = wr_memset ⟨ws, we, p.area⟩ mem dst c n) := by
  refine ⟨rfl, rfl, rfl, rfl, fun a => rfl, ?_, ?_, ?_⟩
  · intro ws we ptr n
    exact is_wr_pool_map_protect ws we p.area hpm ptr n
  · intro ws we mem dst src n
    have harea : (pmalloc_make_pool_ro p).area = p.area.map protect_area := rfl
    rw [harea]
    unfold wr_memcpy
    dsimp only
    have hvirt : __is_wr_after_init ⟨ws, we, p.area.map protect_area⟩ dst n
        = __is_wr_after_init ⟨ws, we, p.area⟩ dst n := rfl
    rw [hvirt, is_wr_pool_map_protect ws we p.area hpm dst n,
      wr_memcpy_loop_map_protect]
  · intro ws we mem dst c n
    have harea : (pmalloc_make_pool_ro p).area = p.area.map protect_area := rfl
    rw [harea]
    unfold wr_memset
    dsimp only
    have hvirt : __is_wr_after_init ⟨ws, we, p.area.map protect_area⟩ dst n
        = __is_wr_after_init ⟨ws, we, p.area⟩ dst n := rfl
    rw [hvirt, is_wr_pool_map_protect ws we p.area hpm dst n,
      wr_memset_loop_map_protect]

/-- C10 witness: a one-chunk write-rare pool; making it read-only does
    not change the outcome of a concrete wr_memcpy into the chunk, and
    the mode bits are cleared. -/
theorem claim_C10_witness :
    (pmalloc_make_pool_ro
        ⟨[⟨4096, 1, ⟨true, true, false⟩, false⟩], 8, 4096, 0,
          ⟨true, false, false⟩⟩).mode.wr = false ∧
    wr_memcpy ⟨0, 0, (pmalloc_make_pool_ro
        ⟨[⟨4096, 1, ⟨true, true, false⟩, false⟩], 8, 4096, 0,
          ⟨true, false, false⟩⟩).area⟩ (fun _ => 0) 4200 100 16
      = wr_memcpy ⟨0, 0, [⟨4096, 1, ⟨true, true, false⟩, false⟩]⟩
          (fun _ => 0) 4200 100 16 :=
  ⟨(claim_C10_make_pool_ro_keeps_wr_writes _ (by decide)).1,
    (claim_C10_make_pool_ro_keeps_wr_writes
        ⟨[⟨4096, 1, ⟨true, true, false⟩, false⟩], 8, 4096, 0,
          ⟨true, false, false⟩⟩ (by decide)).2.2.2.2.2.2.1
      0 0 (fun _ => 0) 4200 100 16⟩

theorem prlist_del_poison (h : Heap) (e : Nat) :
    ((prlist_del h e) e).next = LIST_POISON1 ∧
    ((prlist_del h e) e).prev = LIST_POISON2 := by
  unfold prlist_del __prlist_del_entry __prlist_del set_next set_prev
  simp

theorem prlist_del_next_at_prev (h : Heap) (e : Nat) (hp : (h e).prev ≠ e) :
    ((prlist_del h e) ((h e).prev)).next = (h e).next := by
  unfold prlist_del __prlist_del_entry __prlist_del set_next set_prev
  simp [hp]

theorem prlist_del_prev_at_next (h : Heap) (e : Nat) (hs : (h e).next ≠ e) :
    ((prlist_del h e) ((h e).next)).prev = (h e).prev := by
  unfold prlist_del __prlist_del_entry __prlist_del
  by_cases hsp : (h e).next = (h e).prev
  · have hpe : ¬((h e).prev = e) := fun hh => hs (hsp.trans hh)
    have hep : ¬(e = (h e).prev) := fun hh => hpe hh.symm
    simp [set_next, set_prev, hs, hsp, hpe, hep]
  · simp [set_next, set_prev, hs, hsp]

theorem prlist_del_next_other (h : Heap) (e x : Nat)
    (hxe : x ≠ e) (hxp : x ≠ (h e).prev) :
    ((prlist_del h e) x).next = (h x).next := by
  unfold prlist_del __prlist_del_entry __prlist_del
  by_cases hxs : x = (h e).next
  · have hse : ¬((h e).next = e) := fun hh => hxe (hxs.trans hh)
    have hsp2 : ¬((h e).next = (h e).prev) := fun hh => hxp (hxs.trans hh)
    simp [set_next, set_prev, hxs, hse, hsp2]
  · simp [set_next, set_prev, hxe, hxp, hxs]

theorem mod_succ_eq (j L : Nat) (hj : j < L) :
    (j + 1) % L = if j + 1 = L then 0 else j + 1 := by
  by_cases hc : j + 1 = L
  · simp [hc, Nat.mod_self]
  · rw [if_neg hc]
    exact Nat.mod_eq_of_lt (by omega)

theorem mod_pred_eq (j L : Nat) (hj : j < L) :
    (j + L - 1) % L = if j = 0 then L - 1 else j - 1 := by
  by_cases hc : j = 0
  · subst hc
    rw [if_pos rfl]
    simp only [Nat.zero_add]
    exact Nat.mod_eq_of_lt (by omega)
  · rw [if_neg hc]
    have h2 : j + L - 1 = (j - 1) + L := by omega
    rw [h2, Nat.add_mod_right]
    exact Nat.mod_eq_of_lt (by omega)

theorem ring_del_step (h : Heap) (xs : List Nat) (e : Nat) (j : Fin xs.length)
    (hnd : xs.Nodup) (hWF : ringWF h xs) (hj : xs.get j = e)
    (hL : 2 ≤ xs.length) (x : Nat) (hx : x ∈ xs) (hxe : x ≠ e) :
    ((prlist_del h e) x).next ∈ xs ∧ ((prlist_del h e) x).next ≠ e := by
  obtain ⟨i, hi⟩ := List.mem_iff_get.mp hx
  have hWFj := hWF j
  rw [hj] at hWFj
  obtain ⟨hne, hpe⟩ := hWFj
  have hsnee : (h e).next ≠ e := by
    rw [hne]
    intro heq
    rw [← hj] at heq
    have h3 : (j.val + 1) % xs.length = j.val :=
      congrArg Fin.val ((List.Nodup.get_inj_iff hnd).mp heq)
    rw [mod_succ_eq _ _ j.isLt] at h3
    by_cases hc : j.val + 1 = xs.length
    · rw [if_pos hc] at h3; omega
    · rw [if_neg hc] at h3; omega
  have hpnee : (h e).prev ≠ e := by
    rw [hpe]
    intro heq
    rw [← hj] at heq
    have h3 : (j.val + xs.length - 1) % xs.length = j.val :=
      congrArg Fin.val ((List.Nodup.get_inj_iff hnd).mp heq)
    rw [mod_pred_eq _ _ j.isLt] at h3
    by_cases hc : j.val = 0
    · rw [if_pos hc] at h3; omega
    · rw [if_neg hc] at h3; omega
  have hsmem : (h e).next ∈ xs := by
    rw [hne]; exact List.get_mem _ _ _
  by_cases hxp : x = (h e).prev
  · rw [hxp, prlist_del_next_at_prev h e hpnee]
    exact ⟨hsmem, hsnee⟩
  · rw [prlist_del_next_other h e x hxe hxp, ← hi, (hWF i).1]
    refine ⟨List.get_mem _ _ _, ?_⟩
    intro heq
    rw [← hj] at heq
    have h3 : (i.val + 1) % xs.length = j.val :=
      congrArg Fin.val ((List.Nodup.get_inj_iff hnd).mp heq)
    rw [mod_succ_eq _ _ i.isLt] at h3
    apply hxp
    rw [hpe, ← hi]
    apply congrArg xs.get
    apply Fin.ext
    show i.val = (j.val + xs.length - 1) % xs.length
    rw [mod_pred_eq _ _ j.isLt]
    by_cases hc : i.val + 1 = xs.length
    · rw [if_pos hc] at h3
      rw [if_pos (by omega)]
      omega
    · rw [if_neg hc] at h3
      rw [if_neg (by omega)]
      omega

theorem nextChain_avoids (h' : Heap) (xs : List Nat) (e : Nat)
    (hstep : ∀ x ∈ xs, x ≠ e → (h' x).next ∈ xs ∧ (h' x).next ≠ e) :
    ∀ (k : Nat) (x : Nat), x ∈ xs → x ≠ e → nextChain h' x k ≠ e := by
  intro k
  induction k with
  | zero => intro x _ hxe; exact hxe
  | succ n ih =>
    intro x hx hxe
    have hs := hstep x hx hxe
    exact ih _ hs.1 hs.2

/-- C8: after INIT_PRLIST_HEAD(h), h.next = h.prev = h; after
    prlist_add(n, head), head.next = n and n.prev = head; after
    prlist_del(e) on a node of a valid list (prev and next of e are
    other nodes), the former predecessor and successor of e point
    directly at each other, the link fields of e hold LIST_POISON1 and
    LIST_POISON2, and forward traversal of the live ring, started at
    any remaining node, never reaches e. -/
theorem claim_C8_prlist_ops :
    (∀ (h : Heap) (x : Nat),
      ((INIT_PRLIST_HEAD h x) x).next = x ∧
      ((INIT_PRLIST_HEAD h x) x).prev = x) ∧
    (∀ (h : Heap) (nw hd : Nat),
      ((prlist_add h nw hd) hd).next = nw ∧
      ((prlist_add h nw hd) nw).prev = hd) ∧
    (∀ (h : Heap) (e : Nat), (h e).prev ≠ e → (h e).next ≠ e →
      ((prlist_del h e) ((h e).prev)).next = (h e).next ∧
      ((prlist_del h e) ((h e).next)).prev = (h e).prev ∧
      ((prlist_del h e) e).next = LIST_POISON1 ∧
      ((prlist_del h e) e).prev = LIST_POISON2) ∧
    (∀ (h : Heap) (xs : List Nat) (e hd : Nat),
      xs.Nodup → ringWF h xs → e ∈ xs → hd ∈ xs → hd ≠ e →
      ∀ k : Nat, nextChain (prlist_del h e) hd k ≠ e) := by
  refine ⟨?_, ?_, ?_, ?_⟩
  · intro h x
    constructor <;> simp [INIT_PRLIST_HEAD, set_next, set_prev]
  · intro h nw hd
    by_cases hnh : nw = hd <;>
      constructor <;>
        simp [prlist_add, __prlist_add, set_next, set_prev, hnh]
  · intro h e hp hs
    exact ⟨prlist_del_next_at_prev h e hp, prlist_del_prev_at_next h e hs,
      (prlist_del_poison h e).1, (prlist_del_poison h e).2⟩
  · intro h xs e hd hnd hWF he hhd hhde k
    obtain ⟨j, hj⟩ := List.mem_iff_get.mp he
    obtain ⟨i0, hi0⟩ := List.mem_iff_get.mp hhd
    have hL : 2 ≤ xs.length := by
      have hij : i0 ≠ j := by
        intro hh
        exact hhde (by rw [← hi0, ← hj, hh])
      have h1 := i0.isLt
      have h2 := j.isLt
      have h3 : i0.val ≠ j.val := fun hh => hij (Fin.ext hh)
      omega
    exact nextChain_avoids (prlist_del h e) xs e
      (fun x hx hxe => ring_del_step h xs e j hnd hWF hj hL x hx hxe)
      k hd hhd hhde

/-- C8 witness: a concrete three-node ring 10 - 20 - 30; deleting 20
    relinks 10 and 30, poisons 20, and four traversal steps from 10
    never reach 20; the INIT and add properties at concrete nodes. -/
theorem claim_C8_witness :
    ((INIT_PRLIST_HEAD (fun _ => ⟨0, 0⟩) 5) 5).next = 5 ∧
    ((prlist_add (fun _ => (⟨0, 0⟩ : PrNode)) 7 5) 5).next = 7 ∧
    ((prlist_del (fun a => if a = 10 then ⟨20, 30⟩ else if a = 20 then ⟨30, 10⟩
        else if a = 30 then ⟨10, 20⟩ else ⟨0, 0⟩) 20)
      (((fun a => if a = 10 then (⟨20, 30⟩ : PrNode) else if a = 20 then ⟨30, 10⟩
        else if a = 30 then ⟨10, 20⟩ else ⟨0, 0⟩) : Heap) 20).prev).next
      = (((fun a => if a = 10 then (⟨20, 30⟩ : PrNode) else if a = 20 then ⟨30, 10⟩
        else if a = 30 then ⟨10, 20⟩ else ⟨0, 0⟩) : Heap) 20).next ∧
    nextChain (prlist_del (fun a => if a = 10 then ⟨20, 30⟩
        else if a = 20 then ⟨30, 10⟩
        else if a = 30 then ⟨10, 20⟩ else ⟨0, 0⟩) 20) 10 4 ≠ 20 :=
  ⟨(claim_C8_prlist_ops.1 (fun _ => ⟨0, 0⟩) 5).1,
    (claim_C8_prlist_ops.2.1 (fun _ => ⟨0, 0⟩) 7 5).1,
    (claim_C8_prlist_ops.2.2.1
      (fun a => if a = 10 then ⟨20, 30⟩ else if a = 20 then ⟨30, 10⟩
        else if a = 30 then ⟨10, 20⟩ else ⟨0, 0⟩) 20
      (by decide) (by decide)).1,
    claim_C8_prlist_ops.2.2.2
      (fun a => if a = 10 then ⟨20, 30⟩ else if a = 20 then ⟨30, 10⟩
        else if a = 30 then ⟨10, 20⟩ else ⟨0, 0⟩) [10, 20, 30] 20 10
      (by decide) (by intro i; fin_cases i <;> exact ⟨rfl, rfl⟩)
      (by decide) (by decide) (by decide) 4⟩

end Prmem
